import Mathlib

/-!
Shallow embedding of the quiz application (Express + PostgreSQL server in
`src/server/server.ts`, React client in `src/App.tsx`).

The server's `questions` table is modelled as a list of rows plus the next
SERIAL id.  Each HTTP handler becomes a pure function from a store (and the
request data) to a response paired with the possibly-updated store.  The
client's quiz state machine becomes a state record with one function per
React handler, and a guarded step function reflecting which handlers the UI
can actually fire in each mode.
-/

namespace QuizApp

/-- A persisted question row: `id SERIAL PRIMARY KEY, question TEXT,
options TEXT[], correct_answer INTEGER, explanation TEXT` (timestamps are
not exposed through the API and are omitted). -/
structure Question where
  id : Nat
  question : String
  options : List String
  correctAnswer : Int
  explanation : String
deriving DecidableEq, Repr

/-- The request body of POST/PUT `/api/questions`.  `correctAnswer` is
`Option Int` because the JSON field may be absent (`undefined` in the
handler); `options` is the parsed array. -/
structure Payload where
  question : String
  options : List String
  correctAnswer : Option Int
  explanation : String
deriving DecidableEq, Repr

/-- The questions table: the rows (in id order, since every insert uses the
monotone SERIAL id) together with the next SERIAL value. -/
structure Store where
  rows : List Question
  nextId : Nat
deriving DecidableEq, Repr

/-- An HTTP response: either a success status with a body, or an error
status with the JSON `error` message. -/
inductive ApiResult (α : Type) where
  | ok (status : Nat) (body : α)
  | err (status : Nat) (msg : String)
deriving DecidableEq, Repr

/-- The HTTP status code of a response. -/
def ApiResult.status : ApiResult α → Nat
  | .ok s _ => s
  | .err s _ => s

/-- The first validation check of the POST and PUT handlers:
`!question || !options || !Array.isArray(options) || options.length !== 4`.
A falsy `question` is the empty string; `options` is modelled as the parsed
array, so only its length can fail. -/
def badQuestionOrOptions (p : Payload) : Bool :=
  p.question == "" || p.options.length != 4

/-- The second validation check: `correctAnswer < 0 || correctAnswer > 3`.
When the field is absent, JavaScript evaluates `undefined < 0` and
`undefined > 3`, which are both `false`, so a missing `correctAnswer`
passes this check. -/
def answerOutOfRange (p : Payload) : Bool :=
  match p.correctAnswer with
  | some n => n < 0 || n > 3
  | none => false

/-- GET `/api/questions`: all rows in id order. -/
def listQuestions (s : Store) : List Question :=
  s.rows

/-- The `WHERE id = $1` lookup used by GET `/api/questions/:id`. -/
def getQuestion (s : Store) (i : Nat) : Option Question :=
  s.rows.find? (fun r => r.id == i)

/-- GET `/api/questions/:id`: 404 when no row matches, otherwise the row. -/
def getQuestionHandler (s : Store) (i : Nat) : ApiResult Question :=
  match getQuestion s i with
  | none => .err 404 "Question not found"
  | some q => .ok 200 q

/-- POST `/api/questions`: the two validation checks, then
`INSERT ... RETURNING`.  When validation passed but `correctAnswer` is
absent, the INSERT against the `NOT NULL` column throws and the handler's
catch block answers 500. -/
def createQuestion (s : Store) (p : Payload) : ApiResult Question × Store :=
  if badQuestionOrOptions p then
    (.err 400 "Question must have 4 options", s)
  else if answerOutOfRange p then
    (.err 400 "Correct answer must be between 0 and 3", s)
  else
    match p.correctAnswer with
    | none => (.err 500 "Internal server error", s)
    | some ca =>
      let q : Question := ⟨s.nextId, p.question, p.options, ca, p.explanation⟩
      (.ok 201 q, ⟨s.rows ++ [q], s.nextId + 1⟩)

/-- The row transformation of the SQL UPDATE: the matching row gets every
mutable field replaced (id untouched), other rows are unchanged. -/
def applyUpdate (i : Nat) (p : Payload) (ca : Int) (r : Question) : Question :=
  if r.id == i then ⟨r.id, p.question, p.options, ca, p.explanation⟩ else r

/-- PUT `/api/questions/:id`: same validation as create, then
`UPDATE ... WHERE id = $5 RETURNING`; 404 when no row matched.  As in
create, an absent `correctAnswer` that reaches the UPDATE of an existing
row violates the `NOT NULL` constraint, landing in the 500 catch block
(when no row matches, the UPDATE touches nothing and the handler answers
404). -/
def updateQuestion (s : Store) (i : Nat) (p : Payload) : ApiResult Question × Store :=
  if badQuestionOrOptions p then
    (.err 400 "Question must have 4 options", s)
  else if answerOutOfRange p then
    (.err 400 "Correct answer must be between 0 and 3", s)
  else if (getQuestion s i).isNone then
    (.err 404 "Question not found", s)
  else
    match p.correctAnswer with
    | none => (.err 500 "Internal server error", s)
    | some ca =>
      let rows2 := s.rows.map (applyUpdate i p ca)
      match rows2.find? (fun r => r.id == i) with
      | some q => (.ok 200 q, ⟨rows2, s.nextId⟩)
      | none => (.err 404 "Question not found", s)

/-- DELETE `/api/questions/:id`: first `SELECT COUNT(*)`; with at most one
row the handler answers 400 before ever looking at the id; otherwise
`DELETE ... WHERE id = $1 RETURNING`, answering 404 when nothing matched. -/
def deleteQuestion (s : Store) (i : Nat) : ApiResult String × Store :=
  if s.rows.length ≤ 1 then
    (.err 400 "Cannot delete the last question", s)
  else
    let remaining := s.rows.filter (fun r => r.id != i)
    if remaining.length == s.rows.length then
      (.err 404 "Question not found", s)
    else
      (.ok 200 "Question deleted successfully", ⟨remaining, s.nextId⟩)

/-- The three fixed sample rows of `initializeDatabase`, as
(question, options, correct_answer, explanation) tuples. -/
def sampleQuestions : List (String × List String × Int × String) :=
  [("What is the capital of France?",
    ["London", "Berlin", "Paris", "Madrid"], 2,
    "Paris has been the capital of France since the 12th century."),
   ("Which planet is known as the Red Planet?",
    ["Venus", "Mars", "Jupiter", "Saturn"], 1,
    "Mars appears red due to iron oxide (rust) on its surface."),
   ("What is the largest mammal in the world?",
    ["African Elephant", "Blue Whale", "Giraffe", "Polar Bear"], 1,
    "The Blue Whale can grow up to 100 feet long and weigh 200 tons.")]

/-- `initializeDatabase`: when `SELECT COUNT(*)` is zero, each sample
question is inserted in order (consuming SERIAL ids); a non-empty table is
left alone. -/
def initializeDatabase (s : Store) : Store :=
  if s.rows.length == 0 then
    sampleQuestions.foldl
      (fun st q => ⟨st.rows ++ [⟨st.nextId, q.1, q.2.1, q.2.2.1, q.2.2.2⟩],
                    st.nextId + 1⟩)
      s
  else s

/-- Well-formedness that every store reachable through the API enjoys:
rows strictly sorted by id (SERIAL ids are assigned increasingly and never
reused) and every id below the next SERIAL value. -/
def storeWF (s : Store) : Prop :=
  s.rows.Pairwise (fun a b => a.id < b.id) ∧ ∀ r ∈ s.rows, r.id < s.nextId

instance (s : Store) : Decidable (storeWF s) := by
  unfold storeWF; infer_instance

/-- The freshly initialised store: empty table, first SERIAL id 1, then
seeded. -/
def seedStore : Store :=
  initializeDatabase ⟨[], 1⟩

/-! ## Client quiz state machine (`src/App.tsx`) -/

/-- The play-mode React state of `QuizGame`: the loaded question list and
the five pieces of quiz state (`currentQuestion`, `selectedAnswer`,
`score`, `showResult`, `quizCompleted`). -/
structure ClientState where
  quizQuestions : List Question
  currentQuestion : Nat
  selectedAnswer : Option Int
  score : Nat
  showResult : Bool
  quizCompleted : Bool
deriving DecidableEq, Repr

/-- The state right after a successful initial fetch: index 0, nothing
selected, score 0, nothing revealed. -/
def initState (qs : List Question) : ClientState :=
  ⟨qs, 0, none, 0, false, false⟩

/-- `handleAnswerSelect`: the clicked option replaces any prior
selection. -/
def handleAnswerSelect (st : ClientState) (i : Int) : ClientState :=
  { st with selectedAnswer := some i }

/-- `handleSubmit`: with no selection, return immediately; otherwise
increment the score exactly when the selection equals the current
question's `correctAnswer`, and reveal the result. -/
def handleSubmit (st : ClientState) : ClientState :=
  match st.selectedAnswer with
  | none => st
  | some sel =>
    match st.quizQuestions[st.currentQuestion]? with
    | some q =>
      if sel == q.correctAnswer then
        { st with score := st.score + 1, showResult := true }
      else
        { st with showResult := true }
    | none => { st with showResult := true }

/-- `handleNext`: advance and clear selection/reveal while questions
remain (`currentQuestion < quizQuestions.length - 1`), else mark the quiz
completed. -/
def handleNext (st : ClientState) : ClientState :=
  if st.currentQuestion + 1 < st.quizQuestions.length then
    { st with currentQuestion := st.currentQuestion + 1,
              selectedAnswer := none, showResult := false }
  else
    { st with quizCompleted := true }

/-- `handleRestart`: reset every quiz counter, keep the loaded
questions. -/
def handleRestart (st : ClientState) : ClientState :=
  { st with currentQuestion := 0, selectedAnswer := none, score := 0,
            showResult := false, quizCompleted := false }

/-- The user actions of play mode. -/
inductive Event where
  | select (i : Int)
  | submit
  | next
  | restart
deriving DecidableEq, Repr

/-- One UI-driven transition.  The guards are the render conditions of
`App.tsx`: option buttons only act while nothing is revealed and the quiz
is not completed, the submit button only renders with a selection and no
revealed result, the next button only renders while a result is shown, and
the restart button only exists on the completion screen.  A handler whose
trigger is not rendered leaves the state unchanged. -/
def step (st : ClientState) (e : Event) : ClientState :=
  match e with
  | .select i =>
    if st.quizCompleted || st.showResult then st else handleAnswerSelect st i
  | .submit =>
    if st.quizCompleted || st.showResult || st.selectedAnswer.isNone then st
    else handleSubmit st
  | .next =>
    if st.quizCompleted || !st.showResult then st else handleNext st
  | .restart =>
    if st.quizCompleted then handleRestart st else st

/-- Run a sequence of user actions. -/
def run (st : ClientState) (es : List Event) : ClientState :=
  es.foldl step st

/-- `Math.round` on an exact rational: floor of x + 1/2 (JavaScript rounds
halves toward positive infinity).  The client computes with doubles, which
are exact on every value this development evaluates. -/
def jsRound (x : Rat) : Int :=
  ⌊x + 1 / 2⌋

/-- The percentage shown on the completion screen:
`Math.round((score / quizQuestions.length) * 100)`. -/
def scorePercentage (st : ClientState) : Int :=
  jsRound ((st.score : Rat) / (st.quizQuestions.length : Rat) * 100)

/-- The number of positions at which the submitted selection equals that
question's `correctAnswer`. -/
def countCorrect (qs : List Question) (sels : List Int) : Nat :=
  (qs.zip sels).countP (fun p => p.2 == p.1.correctAnswer)

/-- The canonical full play-through: for each intended selection, click the
option, submit, and advance. -/
def playEvents (sels : List Int) : List Event :=
  (sels.map (fun s => [Event.select s, Event.submit, Event.next])).flatten

/-! ## Client editing flow (`src/App.tsx`) -/

/-- `Math.max(...quizQuestions.map(q => q.id))` over a non-empty list
(the reachable case; on an empty list JavaScript yields -Infinity and this
model yields the sentinel 0). -/
def maxIdList (qs : List Question) : Nat :=
  qs.foldl (fun m q => max m q.id) 0

/-- The body `handleSaveQuestion` serialises from a draft: all four
mutable fields, `correctAnswer` always present. -/
def payloadOfQuestion (q : Question) : Payload :=
  ⟨q.question, q.options, some q.correctAnswer, q.explanation⟩

/-- The method choice of `handleSaveQuestion`: POST (create) exactly when
the draft id exceeds the maximum loaded id, PUT (update) otherwise. -/
def saveIsCreate (qs : List Question) (draft : Question) : Bool :=
  maxIdList qs < draft.id

/-- The request issued by `handleSaveQuestion`, applied to the server
store. -/
def handleSaveQuestion (s : Store) (qs : List Question) (draft : Question) :
    ApiResult Question × Store :=
  if saveIsCreate qs draft then
    createQuestion s (payloadOfQuestion draft)
  else
    updateQuestion s draft.id (payloadOfQuestion draft)

/-- The whole save flow: on a success response the client re-fetches the
full list, leaves `currentQuestion` untouched and leaves edit mode; on an
error response it stays in editing with the old list.  Result:
(server store, loaded list, current index, still-editing flag). -/
def saveFlow (s : Store) (qs : List Question) (idx : Nat) (draft : Question) :
    Store × List Question × Nat × Bool :=
  match handleSaveQuestion s qs draft with
  | (.ok _ _, s2) => (s2, listQuestions s2, idx, false)
  | (.err _ _, _) => (s, qs, idx, true)

/-- A one-row store used to exhibit the delete handler's behaviour on a
missing id when only one row remains. -/
def oneRowStore : Store :=
  ⟨[⟨1, "Only question", ["A", "B", "C", "D"], 0, "E"⟩], 2⟩

/-- A payload whose `correctAnswer` field is absent, as a JSON body without
that key produces in the handler. -/
def missingAnswerPayload : Payload :=
  ⟨"Sample question", ["A", "B", "C", "D"], none, "E"⟩

/-! ## Helper lemmas -/

/-- Removing an id that occurs in a strictly-sorted row list shortens it by
exactly one. -/
lemma length_filter_remove (l : List Question) (i : Nat)
    (hp : l.Pairwise (fun a b => a.id < b.id)) (hex : ∃ r ∈ l, r.id = i) :
    (l.filter (fun r => r.id != i)).length + 1 = l.length := by
  induction l with
  | nil => simp at hex
  | cons r t ih =>
    rcases List.pairwise_cons.mp hp with ⟨hr, ht⟩
    rcases hex with ⟨x, hx, hxi⟩
    rcases List.mem_cons.mp hx with h1 | h2
    · subst h1
      have hall : ∀ y ∈ t, (y.id != i) = true := by
        intro y hy
        have := hr y hy
        simp only [bne_iff_ne, ne_eq]
        omega
      have hrf : (x.id != i) = false := by simp [hxi]
      simp [List.filter_cons, hrf, List.filter_eq_self.mpr hall]
    · have hri : (r.id != i) = true := by
        have := hr x h2
        simp only [bne_iff_ne, ne_eq]
        omega
      have := ih ht ⟨x, h2, hxi⟩
      simp only [List.filter_cons, hri, if_true, List.length_cons]
      omega

/-- A filter that keeps the whole length keeps the whole list. -/
lemma filter_eq_of_length_eq {α : Type} (p : α → Bool) (l : List α)
    (h : (l.filter p).length = l.length) : l.filter p = l :=
  (l.filter_sublist).eq_of_length h

/-! ## C1 -/

/-- C1: on a store with exactly one row, Delete answers 400 for every id
and leaves the store untouched; on a well-formed store with at least two
rows and an existing id, Delete answers 200 and the row count drops by
exactly one. -/
theorem delete_one_row_guard_two_row_success (s : Store) (i : Nat)
    (hwf : storeWF s) :
    (s.rows.length = 1 →
      deleteQuestion s i = (.err 400 "Cannot delete the last question", s)) ∧
    (2 ≤ s.rows.length → (∃ r ∈ s.rows, r.id = i) →
      (deleteQuestion s i).1.status = 200 ∧
      (deleteQuestion s i).2.rows.length + 1 = s.rows.length) := by
  constructor
  · intro h1
    simp [deleteQuestion, h1]
  · intro h2 hex
    have hlen := length_filter_remove s.rows i hwf.1 hex
    have hne : ((s.rows.filter (fun r => r.id != i)).length == s.rows.length) = false := by
      simp only [beq_eq_false_iff_ne, ne_eq]
      omega
    simp only [deleteQuestion]
    rw [if_neg (by omega)]
    simp only [hne, if_false, Bool.false_eq_true]
    exact ⟨rfl, hlen⟩

/-- C1 witness: on the seeded three-row store, deleting id 2 succeeds and
leaves two rows; the one-row guard is exercised through the hypothesis
structure at `oneRowStore`. -/
theorem delete_one_row_guard_two_row_success_witness :
    (deleteQuestion seedStore 2).1.status = 200 ∧
    (deleteQuestion seedStore 2).2.rows.length + 1 = seedStore.rows.length ∧
    deleteQuestion oneRowStore 5 = (.err 400 "Cannot delete the last question", oneRowStore) := by
  refine ⟨((delete_one_row_guard_two_row_success seedStore 2 (by decide)).2
            (by decide) ⟨⟨2, "Which planet is known as the Red Planet?",
              ["Venus", "Mars", "Jupiter", "Saturn"], 1,
              "Mars appears red due to iron oxide (rust) on its surface."⟩,
              by decide, rfl⟩).1,
         ((delete_one_row_guard_two_row_success seedStore 2 (by decide)).2
            (by decide) ⟨⟨2, "Which planet is known as the Red Planet?",
              ["Venus", "Mars", "Jupiter", "Saturn"], 1,
              "Mars appears red due to iron oxide (rust) on its surface."⟩,
              by decide, rfl⟩).2,
         (delete_one_row_guard_two_row_success oneRowStore 5 (by decide)).1 rfl⟩

/-! ## C2 -/

/-- C2 counterexample: on a one-row store, deleting an id that does not
exist still answers the business-rule 400 (the count check runs first), not
the 404 the claim requires for a nonexistent id. -/
theorem delete_missing_id_one_row_counterexample :
    (∀ r ∈ oneRowStore.rows, r.id ≠ 2) ∧
    (deleteQuestion oneRowStore 2).1 = .err 400 "Cannot delete the last question" ∧
    (deleteQuestion oneRowStore 2).1.status ≠ 404 := by
  decide

/-- C2 (amended): the business-rule 400 is returned exactly when the store
holds at most one row, regardless of whether the id exists; with at least
two rows, 404 is returned exactly when the id does not exist. -/
theorem delete_status_characterisation (s : Store) (i : Nat) :
    ((deleteQuestion s i).1.status = 400 ↔ s.rows.length ≤ 1) ∧
    (2 ≤ s.rows.length →
      ((deleteQuestion s i).1.status = 404 ↔ ∀ r ∈ s.rows, r.id ≠ i)) := by
  have hiff : ((s.rows.filter (fun r => r.id != i)).length = s.rows.length ↔
      ∀ r ∈ s.rows, r.id ≠ i) := by
    constructor
    · intro h r hr
      have h' := List.filter_eq_self.mp (filter_eq_of_length_eq _ _ h) r hr
      simpa using h'
    · intro h
      rw [List.filter_eq_self.mpr]
      intro r hr
      simpa using h r hr
  have he400 : s.rows.length ≤ 1 →
      deleteQuestion s i = (.err 400 "Cannot delete the last question", s) := by
    intro h
    simp [deleteQuestion, h]
  have he404 : ¬s.rows.length ≤ 1 →
      (s.rows.filter (fun r => r.id != i)).length = s.rows.length →
      deleteQuestion s i = (.err 404 "Question not found", s) := by
    intro h1 h2
    simp [deleteQuestion, if_neg h1, h2]
  have he200 : ¬s.rows.length ≤ 1 →
      (s.rows.filter (fun r => r.id != i)).length ≠ s.rows.length →
      (deleteQuestion s i).1 = .ok 200 "Question deleted successfully" := by
    intro h1 h2
    simp only [deleteQuestion, if_neg h1]
    rw [if_neg (by simpa using h2)]
  by_cases h1 : s.rows.length ≤ 1
  · rw [he400 h1]
    exact ⟨⟨fun _ => h1, fun _ => rfl⟩, fun h => absurd h (by omega)⟩
  · by_cases h2 : (s.rows.filter (fun r => r.id != i)).length = s.rows.length
    · rw [he404 h1 h2]
      exact ⟨⟨fun h => absurd h (by simp [ApiResult.status]), fun h => absurd h h1⟩,
             fun _ => ⟨fun _ => hiff.mp h2, fun _ => rfl⟩⟩
    · have h200 := he200 h1 h2
      rw [h200]
      refine ⟨⟨fun h => absurd h (by simp [ApiResult.status]), fun h => absurd h h1⟩,
             fun _ => ⟨fun h => absurd h (by simp [ApiResult.status]), fun h => ?_⟩⟩
      exact absurd (hiff.mpr h) h2

/-- C2 (amended) witness: on the seeded three-row store, deleting the
absent id 9 answers 404, and the 400 characterisation rules out the
business-rule error there. -/
theorem delete_status_characterisation_witness :
    2 ≤ seedStore.rows.length ∧
    (deleteQuestion seedStore 9).1.status = 404 ∧
    ¬(deleteQuestion seedStore 9).1.status = 400 := by
  refine ⟨by decide,
    ((delete_status_characterisation seedStore 9).2 (by decide)).mpr (by decide),
    fun h => by
      have := (delete_status_characterisation seedStore 9).1.mp h
      revert this
      decide⟩

/-! ## C3 -/

/-- C3 counterexample: a payload with four options but no `correctAnswer`
field (which the claim places outside [0,3]) is not rejected with 400:
both JavaScript comparisons against `undefined` are false, validation
passes, and the INSERT against the NOT NULL column fails with 500. -/
theorem create_missing_answer_counterexample :
    missingAnswerPayload.correctAnswer = none ∧
    missingAnswerPayload.options.length = 4 ∧
    (createQuestion seedStore missingAnswerPayload).1.status = 500 ∧
    ¬(createQuestion seedStore missingAnswerPayload).1.status = 400 := by
  decide

/-- C3 (amended): a payload whose options are not exactly 4, or whose
`correctAnswer` is present and outside [0,3], gets 400 from both Create
and Update with the store unchanged; a payload with four options, a
non-empty question and a missing `correctAnswer` passes validation and
fails at the store with 500 (also leaving the store unchanged; Update
additionally needs the id to exist to reach the failing write). -/
theorem create_update_validation (s : Store) (i : Nat) (p : Payload) :
    ((p.options.length ≠ 4 ∨ ∃ n, p.correctAnswer = some n ∧ (n < 0 ∨ 3 < n)) →
      (createQuestion s p).1.status = 400 ∧ (createQuestion s p).2 = s ∧
      (updateQuestion s i p).1.status = 400 ∧ (updateQuestion s i p).2 = s) ∧
    (p.correctAnswer = none → p.question ≠ "" → p.options.length = 4 →
      (getQuestion s i).isSome →
      (createQuestion s p).1.status = 500 ∧ (createQuestion s p).2 = s ∧
      (updateQuestion s i p).1.status = 500 ∧ (updateQuestion s i p).2 = s) := by
  constructor
  · intro hbad
    rcases hbad with h4 | ⟨n, hn, hout⟩
    · have hb : badQuestionOrOptions p = true := by
        simp [badQuestionOrOptions, h4]
      simp [createQuestion, updateQuestion, hb, ApiResult.status]
    · by_cases hq : badQuestionOrOptions p = true
      · simp [createQuestion, updateQuestion, hq, ApiResult.status]
      · have ha : answerOutOfRange p = true := by
          simp only [answerOutOfRange, hn]
          rcases hout with h | h
          · simp [decide_eq_true_eq, h]
          · have : ¬ n < 0 := by omega
            simp [decide_eq_true_eq, h, this]
        simp [createQuestion, updateQuestion, hq, ha, ApiResult.status]
  · intro hnone hq h4 hsome
    have hb : badQuestionOrOptions p = false := by
      simp [badQuestionOrOptions, h4, hq]
    have ha : answerOutOfRange p = false := by
      simp [answerOutOfRange, hnone]
    have hg : (getQuestion s i).isNone = false := by
      simp only [Option.isNone_eq_false_iff]
      exact hsome
    simp [createQuestion, updateQuestion, hb, ha, hg, hnone, ApiResult.status]

/-- C3 (amended) witness: a five-option payload is rejected by both Create
and Update on the seeded store, and the missing-answer payload reaches the
500 path. -/
theorem create_update_validation_witness :
    (createQuestion seedStore ⟨"Q", ["A", "B", "C", "D", "E"], some 0, "X"⟩).1.status = 400 ∧
    (updateQuestion seedStore 1 ⟨"Q", ["A", "B", "C", "D", "E"], some 0, "X"⟩).2 = seedStore ∧
    (createQuestion seedStore missingAnswerPayload).1.status = 500 ∧
    (updateQuestion seedStore 1 missingAnswerPayload).1.status = 500 := by
  refine ⟨((create_update_validation seedStore 1
              ⟨"Q", ["A", "B", "C", "D", "E"], some 0, "X"⟩).1 (Or.inl (by decide))).1,
          ((create_update_validation seedStore 1
              ⟨"Q", ["A", "B", "C", "D", "E"], some 0, "X"⟩).1 (Or.inl (by decide))).2.2.2,
          ((create_update_validation seedStore 1 missingAnswerPayload).2
              rfl (by decide) rfl (by decide)).1,
          ((create_update_validation seedStore 1 missingAnswerPayload).2
              rfl (by decide) rfl (by decide)).2.2.1⟩

/-! ## C8 -/

/-- C8: starting from an empty table, initialisation seeds exactly the
three fixed sample questions (France/Paris at index 2, Red Planet/Mars at
index 1, largest mammal/Blue Whale at index 1), each with exactly four
options; a non-empty table is left unchanged. -/
theorem initializeDatabase_seeds_iff_empty (s : Store) :
    (s.rows = [] →
      (initializeDatabase s).rows.length = 3 ∧
      (initializeDatabase s).rows.map Question.question =
        ["What is the capital of France?",
         "Which planet is known as the Red Planet?",
         "What is the largest mammal in the world?"] ∧
      (initializeDatabase s).rows.map Question.options =
        [["London", "Berlin", "Paris", "Madrid"],
         ["Venus", "Mars", "Jupiter", "Saturn"],
         ["African Elephant", "Blue Whale", "Giraffe", "Polar Bear"]] ∧
      (initializeDatabase s).rows.map Question.correctAnswer = [2, 1, 1] ∧
      ∀ r ∈ (initializeDatabase s).rows, r.options.length = 4) ∧
    (s.rows ≠ [] → initializeDatabase s = s) := by
  obtain ⟨rows, n⟩ := s
  constructor
  · intro h
    simp only at h
    subst h
    refine ⟨rfl, rfl, rfl, rfl, ?_⟩
    intro r hr
    simp only [initializeDatabase, sampleQuestions] at hr
    norm_num at hr
    rcases hr with h | h | h <;> simp [h]
  · intro h
    simp only at h
    have : (rows.length == 0) = false := by
      simp only [beq_eq_false_iff_ne, ne_eq, List.length_eq_zero]
      exact h
    simp [initializeDatabase, this]

/-- C8 witness: the empty branch at the fresh store and the non-empty
branch at the seeded store. -/
theorem initializeDatabase_seeds_iff_empty_witness :
    (initializeDatabase ⟨[], 1⟩).rows.map Question.correctAnswer = [2, 1, 1] ∧
    initializeDatabase seedStore = seedStore := by
  exact ⟨((initializeDatabase_seeds_iff_empty ⟨[], 1⟩).1 rfl).2.2.2.1,
         (initializeDatabase_seeds_iff_empty seedStore).2 (by decide)⟩

/-! ## C9 -/

/-- C9: submitting with no selected answer leaves the whole client state
unchanged (score, current index, selection and revealed flag included). -/
theorem submit_without_selection_noop (st : ClientState)
    (h : st.selectedAnswer = none) : handleSubmit st = st := by
  unfold handleSubmit
  rw [h]

/-- C9 witness: submitting right after loading the seeded questions, when
nothing is selected yet, changes nothing. -/
theorem submit_without_selection_noop_witness :
    handleSubmit (initState (listQuestions seedStore)) =
      initState (listQuestions seedStore) :=
  submit_without_selection_noop (initState (listQuestions seedStore)) rfl

/-! ## C4 -/

/-- A well-formed valid payload passes both handler validation checks. -/
lemma valid_payload_checks (p : Payload) (c : Int) (hq : p.question ≠ "")
    (h4 : p.options.length = 4) (hca : p.correctAnswer = some c)
    (hc0 : 0 ≤ c) (hc3 : c ≤ 3) :
    badQuestionOrOptions p = false ∧ answerOutOfRange p = false := by
  constructor
  · simp [badQuestionOrOptions, hq, h4]
  · simp only [answerOutOfRange, hca, Bool.or_eq_false_iff,
      decide_eq_false_iff_not, not_lt]
    omega

/-- C4: creating a valid payload answers 201 with a row carrying the
store's next id and exactly the submitted fields, and fetching that id
afterwards returns exactly that row. -/
theorem create_then_get (s : Store) (p : Payload) (c : Int)
    (hwf : storeWF s) (hq : p.question ≠ "") (h4 : p.options.length = 4)
    (hca : p.correctAnswer = some c) (hc0 : 0 ≤ c) (hc3 : c ≤ 3) :
    ∃ q s2, createQuestion s p = (.ok 201 q, s2) ∧
      q.id = s.nextId ∧ q.question = p.question ∧ q.options = p.options ∧
      q.correctAnswer = c ∧ q.explanation = p.explanation ∧
      getQuestion s2 q.id = some q := by
  obtain ⟨hb, ha⟩ := valid_payload_checks p c hq h4 hca hc0 hc3
  refine ⟨⟨s.nextId, p.question, p.options, c, p.explanation⟩,
          ⟨s.rows ++ [⟨s.nextId, p.question, p.options, c, p.explanation⟩],
           s.nextId + 1⟩, ?_, rfl, rfl, rfl, rfl, rfl, ?_⟩
  · simp [createQuestion, hb, ha, hca]
  · have hnone : s.rows.find? (fun r => r.id == s.nextId) = none := by
      apply List.find?_eq_none.mpr
      intro r hr
      have := hwf.2 r hr
      simp only [beq_iff_eq]
      omega
    simp [getQuestion, List.find?_append, hnone]

/-- C4 witness: creating a concrete valid payload on the seeded store and
fetching the assigned id 4. -/
theorem create_then_get_witness :
    ∃ q s2, createQuestion seedStore ⟨"Which color has the longest wavelength?",
        ["Red", "Green", "Blue", "Violet"], some 0, "Red light has the longest wavelength."⟩ =
        (.ok 201 q, s2) ∧
      q.id = seedStore.nextId ∧
      q.question = "Which color has the longest wavelength?" ∧
      q.options = ["Red", "Green", "Blue", "Violet"] ∧
      q.correctAnswer = 0 ∧
      q.explanation = "Red light has the longest wavelength." ∧
      getQuestion s2 q.id = some q :=
  create_then_get seedStore ⟨"Which color has the longest wavelength?",
      ["Red", "Green", "Blue", "Violet"], some 0, "Red light has the longest wavelength."⟩ 0
    (by decide) (by decide) (by decide) rfl (by decide) (by decide)

/-! ## C5 -/

/-- Every row matching the updated id is rewritten to the same record, so
the lookup after the UPDATE yields exactly the payload's fields under the
requested id. -/
lemma find?_map_applyUpdate_self (l : List Question) (i : Nat) (p : Payload)
    (ca : Int) (hex : ∃ r ∈ l, r.id = i) :
    (l.map (applyUpdate i p ca)).find? (fun r => r.id == i) =
      some ⟨i, p.question, p.options, ca, p.explanation⟩ := by
  induction l with
  | nil => simp at hex
  | cons r t ih =>
    by_cases hr : r.id = i
    · simp [applyUpdate, hr, List.find?_cons]
    · rcases hex with ⟨x, hx, hxi⟩
      rcases List.mem_cons.mp hx with h1 | h2
      · exact absurd (h1 ▸ hxi) hr
      · have hupd : applyUpdate i p ca r = r := by simp [applyUpdate, hr]
        have hpr : (r.id == i) = false := by simp [hr]
        simp only [List.map_cons, List.find?_cons, hupd, hpr]
        exact ih ⟨x, h2, hxi⟩

/-- Rows with a different id are untouched by the UPDATE, and lookups for
other ids see the same result as before. -/
lemma find?_map_applyUpdate_other (l : List Question) (i j : Nat) (p : Payload)
    (ca : Int) (hne : j ≠ i) :
    (l.map (applyUpdate i p ca)).find? (fun r => r.id == j) =
      l.find? (fun r => r.id == j) := by
  induction l with
  | nil => rfl
  | cons r t ih =>
    by_cases hr : r.id = i
    · have h1 : ((applyUpdate i p ca r).id == j) = false := by
        simp only [applyUpdate, hr, if_pos (beq_iff_eq.mpr rfl)]
        simp only [beq_eq_false_iff_ne, ne_eq, hr]
        omega
      have h2 : (r.id == j) = false := by
        simp only [beq_eq_false_iff_ne, ne_eq, hr]
        omega
      simp only [List.map_cons, List.find?_cons, h1, h2]
      exact ih
    · have hupd : applyUpdate i p ca r = r := by simp [applyUpdate, hr]
      simp only [List.map_cons, List.find?_cons, hupd]
      cases hpj : (r.id == j) with
      | true => rfl
      | false => exact ih

/-- C5: updating an existing id with a valid payload answers 200 with a
row that keeps the id and carries exactly the submitted fields; fetching
the id afterwards returns exactly that row, every other id reads exactly
as before, and the row count is unchanged. -/
theorem update_then_get_frame (s : Store) (i : Nat) (p : Payload) (c : Int)
    (hq : p.question ≠ "") (h4 : p.options.length = 4)
    (hca : p.correctAnswer = some c) (hc0 : 0 ≤ c) (hc3 : c ≤ 3)
    (hex : ∃ r ∈ s.rows, r.id = i) :
    ∃ q s2, updateQuestion s i p = (.ok 200 q, s2) ∧
      q.id = i ∧ q.question = p.question ∧ q.options = p.options ∧
      q.correctAnswer = c ∧ q.explanation = p.explanation ∧
      getQuestion s2 i = some q ∧
      (∀ j, j ≠ i → getQuestion s2 j = getQuestion s j) ∧
      s2.rows.length = s.rows.length := by
  obtain ⟨hb, ha⟩ := valid_payload_checks p c hq h4 hca hc0 hc3
  have hsome : (getQuestion s i).isNone = false := by
    rcases hex with ⟨x, hx, hxi⟩
    have : (s.rows.find? (fun r => r.id == i)).isSome := by
      apply List.find?_isSome.mpr
      exact ⟨x, hx, by simp [hxi]⟩
    simp only [getQuestion, Option.isNone_eq_false_iff]
    exact this
  have hfind := find?_map_applyUpdate_self s.rows i p c hex
  refine ⟨⟨i, p.question, p.options, c, p.explanation⟩,
          ⟨s.rows.map (applyUpdate i p c), s.nextId⟩, ?_, rfl, rfl, rfl, rfl, rfl,
          ?_, ?_, by simp⟩
  · simp [updateQuestion, hb, ha, hsome, hca, hfind]
  · simpa [getQuestion] using hfind
  · intro j hj
    simpa [getQuestion] using find?_map_applyUpdate_other s.rows i j p c hj

/-- C5 witness: updating seeded question 2 with concrete new fields and
re-reading the store. -/
theorem update_then_get_frame_witness :
    ∃ q s2, updateQuestion seedStore 2
        ⟨"Which planet is closest to the Sun?",
         ["Mercury", "Venus", "Earth", "Mars"], some 0,
         "Mercury orbits nearest to the Sun."⟩ = (.ok 200 q, s2) ∧
      q.id = 2 ∧
      q.question = "Which planet is closest to the Sun?" ∧
      q.options = ["Mercury", "Venus", "Earth", "Mars"] ∧
      q.correctAnswer = 0 ∧
      q.explanation = "Mercury orbits nearest to the Sun." ∧
      getQuestion s2 2 = some q ∧
      (∀ j, j ≠ 2 → getQuestion s2 j = getQuestion seedStore j) ∧
      s2.rows.length = seedStore.rows.length :=
  update_then_get_frame seedStore 2
    ⟨"Which planet is closest to the Sun?",
     ["Mercury", "Venus", "Earth", "Mars"], some 0,
     "Mercury orbits nearest to the Sun."⟩ 0
    (by decide) (by decide) rfl (by decide) (by decide)
    ⟨⟨2, "Which planet is known as the Red Planet?",
       ["Venus", "Mars", "Jupiter", "Saturn"], 1,
       "Mars appears red due to iron oxide (rust) on its surface."⟩,
     by decide, rfl⟩

/-! ## C6 -/

/-- Running one more event is stepping then running the rest. -/
lemma run_cons (st : ClientState) (e : Event) (es : List Event) :
    run st (e :: es) = run (step st e) es := rfl

/-- The canonical play-through unfolds one selection at a time. -/
lemma playEvents_cons (s : Int) (rest : List Int) :
    playEvents (s :: rest) =
      .select s :: .submit :: .next :: playEvents rest := by
  simp [playEvents]

/-- Selecting while answering replaces the selection and nothing else. -/
lemma step_select_play (qs : List Question) (i : Nat) (sa : Option Int)
    (sc : Nat) (a : Int) :
    step ⟨qs, i, sa, sc, false, false⟩ (.select a) =
      ⟨qs, i, some a, sc, false, false⟩ := by
  simp [step, handleAnswerSelect]

/-- Submitting while answering with a selection scores a hit against the
current question and reveals the result. -/
lemma step_submit_play (qs : List Question) (i : Nat) (a : Int) (sc : Nat)
    (h : i < qs.length) :
    step ⟨qs, i, some a, sc, false, false⟩ .submit =
      ⟨qs, i, some a,
       sc + (if a = qs[i].correctAnswer then 1 else 0),
       true, false⟩ := by
  have hget : qs[i]? = some qs[i] := List.getElem?_eq_getElem h
  simp only [step, handleSubmit, hget]
  by_cases hp : a = qs[i].correctAnswer <;> simp [hp]

/-- Advancing from a revealed result with questions remaining moves to the
next index with a cleared selection. -/
lemma step_next_advance (qs : List Question) (i : Nat) (sa : Option Int)
    (sc : Nat) (h : i + 1 < qs.length) :
    step ⟨qs, i, sa, sc, true, false⟩ .next =
      ⟨qs, i + 1, none, sc, false, false⟩ := by
  simp [step, handleNext, h]

/-- Advancing from the last revealed result completes the quiz. -/
lemma step_next_complete (qs : List Question) (i : Nat) (sa : Option Int)
    (sc : Nat) (h : ¬i + 1 < qs.length) :
    step ⟨qs, i, sa, sc, true, false⟩ .next =
      ⟨qs, i, sa, sc, true, true⟩ := by
  simp [step, handleNext, h]

/-- Playing the remaining selections from the state that is about to answer
question `i` ends in the completed state with the score increased by the
number of remaining hits. -/
lemma run_playEvents_from (qs : List Question) :
    ∀ (sels : List Int) (i sc : Nat) (sa : Option Int),
      i + sels.length = qs.length → sels ≠ [] →
      (run ⟨qs, i, sa, sc, false, false⟩ (playEvents sels)).score =
          sc + countCorrect (qs.drop i) sels ∧
        (run ⟨qs, i, sa, sc, false, false⟩ (playEvents sels)).quizCompleted = true ∧
        (run ⟨qs, i, sa, sc, false, false⟩ (playEvents sels)).quizQuestions = qs := by
  intro sels
  induction sels with
  | nil => intro i sc sa _ hne; exact absurd rfl hne
  | cons s rest ih =>
    intro i sc sa hlen _
    have hi : i < qs.length := by
      simp only [List.length_cons] at hlen
      omega
    have hdrop := List.drop_eq_getElem_cons hi
    have hcount : countCorrect (qs.drop i) (s :: rest) =
        (if s = qs[i].correctAnswer then 1 else 0) +
          countCorrect (qs.drop (i + 1)) rest := by
      rw [hdrop]
      simp only [countCorrect, List.zip_cons_cons, List.countP_cons]
      by_cases hhit : s = qs[i].correctAnswer
      · simp [hhit]
        omega
      · simp [hhit]
    rw [playEvents_cons, run_cons, run_cons, run_cons,
        step_select_play, step_submit_play qs i s sc hi]
    cases rest with
    | nil =>
      have hlast : ¬i + 1 < qs.length := by
        simp only [List.length_cons, List.length_nil] at hlen
        omega
      rw [step_next_complete qs i _ _ hlast]
      simp only [playEvents, List.map_nil, List.flatten_nil, run]
      refine ⟨?_, rfl, rfl⟩
      simp only [List.foldl_nil, hcount]
      have hdrop1 : qs.drop (i + 1) = [] := by
        apply List.drop_eq_nil_of_le
        omega
      simp only [hdrop1, countCorrect, List.zip_nil_left, List.countP_nil]
      omega
    | cons s2 rest2 =>
      have hadv : i + 1 < qs.length := by
        simp only [List.length_cons] at hlen
        omega
      rw [step_next_advance qs i _ _ hadv]
      have hrec := ih (i + 1) (sc + (if s = qs[i].correctAnswer then 1 else 0)) none
        (by simp only [List.length_cons] at hlen ⊢; omega) (by simp)
      refine ⟨?_, hrec.2.1, hrec.2.2⟩
      rw [hrec.1, hcount]
      omega

/-- C6: a full play-through over any non-empty question list with one
selection per question ends completed with the score equal to the number
of selections matching the question's correct answer, and the shown
percentage equal to `Math.round(score / N * 100)`; in particular the
seeded three questions played all-correct give 3 and 100, and played
first-wrong-rest-correct give 2 and 67. -/
theorem quiz_scoring (qs : List Question) (sels : List Int)
    (hlen : sels.length = qs.length) (hne : qs ≠ []) :
    (run (initState qs) (playEvents sels)).score = countCorrect qs sels ∧
    (run (initState qs) (playEvents sels)).quizCompleted = true ∧
    scorePercentage (run (initState qs) (playEvents sels)) =
      jsRound ((countCorrect qs sels : Rat) / (qs.length : Rat) * 100) ∧
    (run (initState (listQuestions seedStore)) (playEvents [2, 1, 1])).score = 3 ∧
    scorePercentage (run (initState (listQuestions seedStore)) (playEvents [2, 1, 1])) = 100 ∧
    (run (initState (listQuestions seedStore)) (playEvents [0, 1, 1])).score = 2 ∧
    scorePercentage (run (initState (listQuestions seedStore)) (playEvents [0, 1, 1])) = 67 := by
  have hselne : sels ≠ [] := by
    intro h
    rw [h] at hlen
    exact hne (List.length_eq_zero.mp hlen.symm)
  have h := run_playEvents_from qs sels 0 0 none (by omega) hselne
  have p1 : scorePercentage
      (run (initState (listQuestions seedStore)) (playEvents [2, 1, 1])) = 100 := by
    have e1 : (run (initState (listQuestions seedStore))
        (playEvents [2, 1, 1])).score = 3 := by decide
    have n1 : (run (initState (listQuestions seedStore))
        (playEvents [2, 1, 1])).quizQuestions.length = 3 := by decide
    rw [scorePercentage, e1, n1, jsRound, Int.floor_eq_iff]
    norm_num
  have p2 : scorePercentage
      (run (initState (listQuestions seedStore)) (playEvents [0, 1, 1])) = 67 := by
    have e2 : (run (initState (listQuestions seedStore))
        (playEvents [0, 1, 1])).score = 2 := by decide
    have n2 : (run (initState (listQuestions seedStore))
        (playEvents [0, 1, 1])).quizQuestions.length = 3 := by decide
    rw [scorePercentage, e2, n2, jsRound, Int.floor_eq_iff]
    norm_num
  refine ⟨by simpa using h.1, h.2.1, ?_, by decide, p1, by decide, p2⟩
  have hq : (run (initState qs) (playEvents sels)).quizQuestions = qs := h.2.2
  have hs : (run (initState qs) (playEvents sels)).score = countCorrect qs sels := by
    simpa using h.1
  rw [scorePercentage, hs, hq]

/-- C6 witness: the seeded questions played first-wrong-rest-correct
complete with score 2 and percentage 67. -/
theorem quiz_scoring_witness :
    (run (initState (listQuestions seedStore)) (playEvents [0, 1, 1])).score =
      countCorrect (listQuestions seedStore) [0, 1, 1] ∧
    (run (initState (listQuestions seedStore)) (playEvents [0, 1, 1])).quizCompleted = true ∧
    scorePercentage (run (initState (listQuestions seedStore)) (playEvents [0, 1, 1])) = 67 := by
  have h := quiz_scoring (listQuestions seedStore) [0, 1, 1] (by decide) (by decide)
  exact ⟨h.1, h.2.1, h.2.2.2.2.2.2⟩

/-! ## C7 -/

/-- C7: saving a valid draft issues Create exactly when the draft id
exceeds the maximum id among the loaded questions and Update otherwise;
the request succeeds, the client re-fetches the full list from the store,
and the prior current index still exists in the re-fetched list (so the
claim's fallback to index 0 for a vanished index never fires on a save). -/
theorem save_method_and_refetch (s : Store) (qs : List Question) (idx : Nat)
    (draft : Question)
    (hsync : qs = listQuestions s)
    (_hne : qs ≠ [])
    (hidx : idx < qs.length)
    (hq : draft.question ≠ "") (h4 : draft.options.length = 4)
    (hc0 : 0 ≤ draft.correctAnswer) (hc3 : draft.correctAnswer ≤ 3)
    (hex : ¬maxIdList qs < draft.id → ∃ r ∈ qs, r.id = draft.id) :
    (saveIsCreate qs draft = true ↔ maxIdList qs < draft.id) ∧
    (saveIsCreate qs draft = true →
      handleSaveQuestion s qs draft = createQuestion s (payloadOfQuestion draft)) ∧
    (saveIsCreate qs draft = false →
      handleSaveQuestion s qs draft = updateQuestion s draft.id (payloadOfQuestion draft)) ∧
    ∃ s2, saveFlow s qs idx draft = (s2, listQuestions s2, idx, false) ∧
      idx < (listQuestions s2).length ∧
      (¬idx < (listQuestions s2).length → idx = 0) := by
  obtain ⟨hb, ha⟩ := valid_payload_checks (payloadOfQuestion draft)
    draft.correctAnswer hq h4 rfl hc0 hc3
  simp only [payloadOfQuestion] at hb ha
  have hiff : saveIsCreate qs draft = true ↔ maxIdList qs < draft.id := by
    simp [saveIsCreate]
  refine ⟨hiff, fun h => by simp [handleSaveQuestion, h],
          fun h => by simp [handleSaveQuestion, h], ?_⟩
  by_cases hcr : saveIsCreate qs draft = true
  · have hcreate : createQuestion s (payloadOfQuestion draft) =
        (.ok 201 ⟨s.nextId, draft.question, draft.options, draft.correctAnswer,
                  draft.explanation⟩,
         ⟨s.rows ++ [⟨s.nextId, draft.question, draft.options, draft.correctAnswer,
                      draft.explanation⟩], s.nextId + 1⟩) := by
      simp [createQuestion, payloadOfQuestion, hb, ha]
    refine ⟨⟨s.rows ++ [⟨s.nextId, draft.question, draft.options, draft.correctAnswer,
                        draft.explanation⟩], s.nextId + 1⟩, ?_, ?_, ?_⟩
    · simp [saveFlow, handleSaveQuestion, hcr, hcreate]
    · have : qs.length = s.rows.length := by rw [hsync]; rfl
      simp only [listQuestions, List.length_append, List.length_cons, List.length_nil]
      omega
    · intro hcontra
      exact absurd (by
        have : qs.length = s.rows.length := by rw [hsync]; rfl
        simp only [listQuestions, List.length_append, List.length_cons, List.length_nil]
        omega) hcontra
  · have hexists : ∃ r ∈ s.rows, r.id = draft.id := by
      have := hex (by
        intro hlt
        exact hcr (hiff.mpr hlt))
      rwa [hsync] at this
    have hsome : (getQuestion s draft.id).isNone = false := by
      rcases hexists with ⟨x, hx, hxi⟩
      have : (s.rows.find? (fun r => r.id == draft.id)).isSome := by
        apply List.find?_isSome.mpr
        exact ⟨x, hx, by simp [hxi]⟩
      simp only [getQuestion, Option.isNone_eq_false_iff]
      exact this
    have hfind := find?_map_applyUpdate_self s.rows draft.id
      (payloadOfQuestion draft) draft.correctAnswer hexists
    simp only [payloadOfQuestion] at hfind
    have hupdate : updateQuestion s draft.id (payloadOfQuestion draft) =
        (.ok 200 ⟨draft.id, draft.question, draft.options, draft.correctAnswer,
                  draft.explanation⟩,
         ⟨s.rows.map (applyUpdate draft.id (payloadOfQuestion draft)
            draft.correctAnswer), s.nextId⟩) := by
      simp [updateQuestion, payloadOfQuestion, hb, ha, hsome, hfind]
    have hcr' : saveIsCreate qs draft = false := by
      simp only [Bool.not_eq_true] at hcr
      exact hcr
    refine ⟨⟨s.rows.map (applyUpdate draft.id (payloadOfQuestion draft)
              draft.correctAnswer), s.nextId⟩, ?_, ?_, ?_⟩
    · simp [saveFlow, handleSaveQuestion, hcr', hupdate]
    · have : qs.length = s.rows.length := by rw [hsync]; rfl
      simp only [listQuestions, List.length_map]
      omega
    · intro hcontra
      exact absurd (by
        have : qs.length = s.rows.length := by rw [hsync]; rfl
        simp only [listQuestions, List.length_map]
        omega) hcontra

/-- C7 witness: editing seeded question 1 in place (an Update, since its
id does not exceed the maximum 3) succeeds and keeps index 1 valid. -/
theorem save_method_and_refetch_witness :
    saveIsCreate (listQuestions seedStore)
      ⟨1, "What is 2 + 2?", ["1", "2", "3", "4"], 3, "Basic addition."⟩ = false ∧
    ∃ s2, saveFlow seedStore (listQuestions seedStore) 1
        ⟨1, "What is 2 + 2?", ["1", "2", "3", "4"], 3, "Basic addition."⟩ =
        (s2, listQuestions s2, 1, false) ∧
      1 < (listQuestions s2).length ∧
      (¬1 < (listQuestions s2).length → 1 = 0) := by
  have h := save_method_and_refetch seedStore (listQuestions seedStore) 1
    ⟨1, "What is 2 + 2?", ["1", "2", "3", "4"], 3, "Basic addition."⟩
    rfl (by decide) (by decide) (by decide) (by decide) (by decide) (by decide)
    (fun _ => ⟨⟨1, "What is the capital of France?",
        ["London", "Berlin", "Paris", "Madrid"], 2,
        "Paris has been the capital of France since the 12th century."⟩,
      by decide, rfl⟩)
  exact ⟨by decide, h.2.2.2⟩

/-! ## C10 -/

/-- The inductive invariant of the play-mode machine: the score is at most
the current index plus one when a result is revealed (plus zero while
answering), and never exceeds the number of loaded questions. -/
def quizInv (st : ClientState) : Prop :=
  st.score ≤ st.currentQuestion + (if st.showResult then 1 else 0) ∧
  st.score ≤ st.quizQuestions.length

/-- Every UI-driven transition preserves the invariant. -/
lemma quizInv_step (st : ClientState) (e : Event) (h : quizInv st) :
    quizInv (step st e) := by
  obtain ⟨h1, h2⟩ := h
  cases e with
  | select i =>
    by_cases hg : (st.quizCompleted || st.showResult) = true
    · simpa [step, hg] using ⟨h1, h2⟩
    · simp only [step, hg, Bool.false_eq_true, if_false, handleAnswerSelect]
      exact ⟨h1, h2⟩
  | submit =>
    by_cases hg : (st.quizCompleted || st.showResult || st.selectedAnswer.isNone) = true
    · simpa [step, hg] using ⟨h1, h2⟩
    · have hsr : st.showResult = false := by
        simp only [Bool.or_eq_true] at hg
        push_neg at hg
        simpa using hg.1.2
      simp only [step, hg, Bool.false_eq_true, if_false, handleSubmit]
      cases hsa : st.selectedAnswer with
      | none => exact ⟨h1, h2⟩
      | some sel =>
        cases hq : st.quizQuestions[st.currentQuestion]? with
        | none =>
          simp only [quizInv]
          rw [hsr] at h1
          simp at h1
          constructor
          · simp
            omega
          · simpa using h2
        | some q =>
          have hlt : st.currentQuestion < st.quizQuestions.length :=
            List.getElem?_eq_some.mp hq |>.1
          rw [hsr] at h1
          simp only [if_false, Bool.false_eq_true] at h1
          by_cases hhit : (sel == q.correctAnswer) = true
          · simp only [hhit, if_true, quizInv]
            constructor
            · simp
              omega
            · omega
          · simp only [hhit, Bool.false_eq_true, if_false, quizInv]
            constructor
            · simp
              omega
            · simpa using h2
  | next =>
    by_cases hg : (st.quizCompleted || !st.showResult) = true
    · simpa [step, hg] using ⟨h1, h2⟩
    · have hsr : st.showResult = true := by
        cases hb : st.showResult
        · exact absurd (by simp [hb]) hg
        · rfl
      simp only [step, hg, Bool.false_eq_true, if_false, handleNext]
      rw [hsr] at h1
      simp only [if_true] at h1
      by_cases hadv : st.currentQuestion + 1 < st.quizQuestions.length
      · simp only [hadv, if_true, quizInv]
        constructor
        · simp
          omega
        · simpa using h2
      · simp only [hadv, if_false, quizInv]
        exact ⟨by simpa [hsr] using h1, h2⟩
  | restart =>
    by_cases hg : st.quizCompleted = true
    · simp only [step, hg, if_true, handleRestart, quizInv]
      exact ⟨by simp, by simp⟩
    · simpa [step, hg] using ⟨h1, h2⟩

/-- The invariant holds along any event sequence. -/
lemma quizInv_run (st : ClientState) (es : List Event) (h : quizInv st) :
    quizInv (run st es) := by
  induction es generalizing st with
  | nil => exact h
  | cons e es ih => exact ih (step st e) (quizInv_step st e h)

/-- A non-restart transition never decreases the score and raises it by at
most one. -/
lemma step_score_bound (st : ClientState) (e : Event) (he : e ≠ Event.restart) :
    st.score ≤ (step st e).score ∧ (step st e).score ≤ st.score + 1 := by
  cases e with
  | select i =>
    by_cases hg : (st.quizCompleted || st.showResult) = true <;>
      simp [step, hg, handleAnswerSelect]
  | submit =>
    by_cases hg : (st.quizCompleted || st.showResult || st.selectedAnswer.isNone) = true
    · simp [step, hg]
    · simp only [step, hg, Bool.false_eq_true, if_false, handleSubmit]
      cases hsa : st.selectedAnswer with
      | none => simp
      | some sel =>
        cases hq : st.quizQuestions[st.currentQuestion]? with
        | none => simp
        | some q =>
          by_cases hhit : (sel == q.correctAnswer) = true <;> simp [hhit]
  | next =>
    by_cases hg : (st.quizCompleted || !st.showResult) = true
    · simp [step, hg]
    · simp only [step, hg, Bool.false_eq_true, if_false, handleNext]
      by_cases hadv : st.currentQuestion + 1 < st.quizQuestions.length <;>
        simp [hadv]
  | restart => exact absurd rfl he

/-- C10 counterexample: after an all-correct run of the seeded quiz the
score is 3, and the restart transition drops it straight to 0 — a change
of 3, so the claim that every transition changes the score by at most 1
fails at the restart transition. -/
theorem restart_score_change_counterexample :
    (run (initState (listQuestions seedStore)) (playEvents [2, 1, 1])).score = 3 ∧
    (step (run (initState (listQuestions seedStore)) (playEvents [2, 1, 1]))
        Event.restart).score = 0 ∧
    ¬(run (initState (listQuestions seedStore)) (playEvents [2, 1, 1])).score ≤
      (step (run (initState (listQuestions seedStore)) (playEvents [2, 1, 1]))
        Event.restart).score + 1 := by
  decide

/-- C10 (amended): in every state reachable from the initial ready state by
select/submit/next/restart transitions, the score is bounded by the current
index plus one and by the number of loaded questions; every select, submit
or next transition changes the score by at most one (never decreasing it),
while restart resets the score to 0, which can change it by more than
one. -/
theorem reachable_score_invariant (qs : List Question) (es : List Event) :
    ((run (initState qs) es).score ≤ (run (initState qs) es).currentQuestion + 1 ∧
     (run (initState qs) es).score ≤ (run (initState qs) es).quizQuestions.length) ∧
    (∀ e, e ≠ Event.restart →
      (run (initState qs) es).score ≤ (step (run (initState qs) es) e).score ∧
      (step (run (initState qs) es) e).score ≤ (run (initState qs) es).score + 1) ∧
    ((run (initState qs) es).quizCompleted = true →
      (step (run (initState qs) es) Event.restart).score = 0) := by
  have hinv := quizInv_run (initState qs) es ⟨by simp [initState], by simp [initState]⟩
  obtain ⟨h1, h2⟩ := hinv
  refine ⟨⟨?_, h2⟩, fun e he => step_score_bound (run (initState qs) es) e he, ?_⟩
  · by_cases hsr : (run (initState qs) es).showResult = true
    · simp [hsr] at h1
      omega
    · simp [hsr] at h1
      omega
  · intro hc
    simp [step, hc, handleRestart]

/-- C10 (amended) witness: after selecting and submitting the correct first
answer of the seeded quiz, the score bounds and the next-transition bound
hold concretely. -/
theorem reachable_score_invariant_witness :
    ((run (initState (listQuestions seedStore)) [Event.select 2, Event.submit]).score ≤
      (run (initState (listQuestions seedStore))
        [Event.select 2, Event.submit]).currentQuestion + 1) ∧
    ((step (run (initState (listQuestions seedStore)) [Event.select 2, Event.submit])
        Event.next).score ≤
      (run (initState (listQuestions seedStore)) [Event.select 2, Event.submit]).score + 1) := by
  refine ⟨(reachable_score_invariant (listQuestions seedStore)
            [Event.select 2, Event.submit]).1.1,
          ((reachable_score_invariant (listQuestions seedStore)
            [Event.select 2, Event.submit]).2.1 Event.next (by decide)).2⟩

end QuizApp
